import Mathlib

/-!
Shallow embedding of `src/nse_data.py` (NIFTY option-chain / futures monitor).

Numeric conventions: Python `int` is modelled as `ℤ`, Python `float` as `ℚ`
(exact arithmetic), Python `None` as `Option.none`.  Module-level
configuration read from the environment (`STRIKE_STEP`, `OTM_COUNT`,
`TELEGRAM_BOT_TOKEN`, `TELEGRAM_CHAT_ID`) is passed as explicit parameters.
-/

namespace NseData

/-- Option side tag: the `"CE"` / `"PE"` keys of a row dict. -/
inductive Side where
  | CE : Side
  | PE : Side
deriving DecidableEq, Repr

/-- One side's sub-record of an option-chain row.  Each field the code reads
(`openInterest`, `totalTradedVolume`, `impliedVolatility`) may be absent,
mirroring `leg.get(key, default)`. -/
structure Leg where
  openInterest : Option ℤ
  totalTradedVolume : Option ℤ
  impliedVolatility : Option ℚ
deriving DecidableEq, Repr

/-- One per-strike row of the option-chain JSON: `strikePrice` plus optional
`"CE"` / `"PE"` sub-records (`t in d` tests presence). -/
structure Row where
  strikePrice : ℤ
  ce : Option Leg
  pe : Option Leg
deriving DecidableEq, Repr

/-- `d[t]` access: the sub-record of row `d` for side `t` (if present). -/
def Row.leg (d : Row) : Side → Option Leg
  | Side.CE => d.ce
  | Side.PE => d.pe

/-- The triple `(int(leg.get("openInterest",0)), int(leg.get("totalTradedVolume",0)),
float(leg.get("impliedVolatility",0.0)))` built at `src/nse_data.py:118`. -/
def legTriple (leg : Leg) : ℤ × ℤ × ℚ :=
  (leg.openInterest.getD 0, leg.totalTradedVolume.getD 0, leg.impliedVolatility.getD 0)

/-- `lookup(data, strike, t)` (`src/nse_data.py:114-119`): scan the rows in
order; on the first row whose `strikePrice` equals `strike` and which has the
side key `t`, return that leg's triple (absent fields default to zero);
return `(0, 0, 0.0)` when no row matches. -/
def lookup : List Row → ℤ → Side → ℤ × ℤ × ℚ
  | [], _, _ => (0, 0, 0)
  | d :: rest, strike, t =>
      if d.strikePrice = strike ∧ (d.leg t).isSome then
        match d.leg t with
        | some leg => legTriple leg
        | none => lookup rest strike t
      else lookup rest strike t

/-- `delta(curr, prev)` (`src/nse_data.py:121-123`) at the triple shape used
for option snapshots: `None` previous gives `None`, otherwise element-wise
subtraction. -/
def delta (curr : ℤ × ℤ × ℚ) : Option (ℤ × ℤ × ℚ) → Option (ℤ × ℤ × ℚ)
  | none => none
  | some p => some (curr.1 - p.1, curr.2.1 - p.2.1, curr.2.2 - p.2.2)

/-- The same Python `delta` function at the pair shape used for the futures
snapshot (`delta((fut_oi, fut_vol), prev_fut_snapshot)`,
`src/nse_data.py:204`); Python's `zip`-based body is shape-generic. -/
def delta2 (curr : ℚ × ℚ) : Option (ℚ × ℚ) → Option (ℚ × ℚ)
  | none => none
  | some p => some (curr.1 - p.1, curr.2 - p.2)

/-- Python 3 `round` to an integer: round half to even (banker's rounding). -/
def roundHalfEven (q : ℚ) : ℤ :=
  let n := ⌊q⌋
  let r := q - n
  if r < 1/2 then n
  else if 1/2 < r then n + 1
  else if n % 2 = 0 then n else n + 1

/-- `round_strike(u) = int(round(u / STRIKE_STEP) * STRIKE_STEP)`
(`src/nse_data.py:109`), with the strike step passed explicitly. -/
def round_strike (step : ℤ) (u : ℚ) : ℤ :=
  roundHalfEven (u / (step : ℚ)) * step

/-- `pick_strikes(a)` (`src/nse_data.py:110-112`), with `STRIKE_STEP` and
`OTM_COUNT` passed explicitly: call strikes
`[a - step, a] + [a + i*step for i in range(1, otm+1)]` and put strikes
`[a + step, a] + [a - i*step for i in range(1, otm+1)]`. -/
def pick_strikes (step : ℤ) (otm : ℕ) (a : ℤ) : List ℤ × List ℤ :=
  ([a - step, a] ++ (List.range otm).map (fun i : ℕ => a + ((i : ℤ) + 1) * step),
   [a + step, a] ++ (List.range otm).map (fun i : ℕ => a - ((i : ℤ) + 1) * step))

/-! ### JSON trees and the recursive futures OI/volume finder -/

/-- Untyped JSON value as the code traverses it: mapping, sequence, numeric
scalar, string, or null.  Python numbers (`int`/`float`, the targets of
`isinstance(v, (int, float))`) are modelled together as `ℚ`. -/
inductive Json where
  | num : ℚ → Json
  | str : String → Json
  | null : Json
  | arr : List Json → Json
  | obj : List (String × Json) → Json

/-- `isinstance(v, (int, float))` and the numeric value itself. -/
def numval : Json → Option ℚ
  | Json.num q => some q
  | _ => none

/-- Boolean prefix test on character lists (`p` starts `s`). -/
def startsWithChars : List Char → List Char → Bool
  | [], _ => true
  | _ :: _, [] => false
  | p :: ps, c :: cs => p == c && startsWithChars ps cs

/-- Python's substring test `pat in s` on character lists. -/
def containsSub : List Char → List Char → Bool
  | [], pat => pat.isEmpty
  | s :: rest, pat => startsWithChars pat (s :: rest) || containsSub rest pat

/-- `pat in s` on strings. -/
def strContains (s pat : String) : Bool := containsSub s.data pat.data

/-- Python's `k.lower()`: lowercase every character (the keys the code
matches are ASCII, where per-character lowering coincides with Python's). -/
def lowerStr (s : String) : String := ⟨s.data.map Char.toLower⟩

/-- The per-node key scan of `deep_find` (`src/nse_data.py:76-82`): iterate
the mapping's items, remembering the value of the last key whose lowercase
form contains both `"open"` and `"interest"` (numeric values only) and the
value of the last key containing `"volume"` (numeric values only). -/
def scanFields : List (String × Json) → Option ℚ × Option ℚ → Option ℚ × Option ℚ
  | [], acc => acc
  | (k, v) :: rest, (oi, vol) =>
      let lk := lowerStr k
      let oi2 := if strContains lk "open" && strContains lk "interest" && (numval v).isSome
                 then numval v else oi
      let vol2 := if strContains lk "volume" && (numval v).isSome
                  then numval v else vol
      scanFields rest (oi2, vol2)

/-- The result a mapping node itself yields: `(oi, vol)` when the key scan
found both, else nothing (`src/nse_data.py:83-84`). -/
def nodeVal (fields : List (String × Json)) : Option (ℚ × ℚ) :=
  match scanFields fields (none, none) with
  | (some a, some b) => some (a, b)
  | _ => none

mutual
/-- The inner `deep_find(obj)` of `deep_find_futures`
(`src/nse_data.py:74-94`): at a mapping, return the node's own `(oi, vol)`
pair if the key scan finds both, else recurse into the values in order; at a
sequence, recurse into the items in order; scalars yield nothing.  The first
non-`None` recursive result is returned immediately. -/
def deep_find : Json → Option (ℚ × ℚ)
  | Json.obj fields =>
      match nodeVal fields with
      | some r => some r
      | none => deepFindFields fields
  | Json.arr items => deepFindList items
  | _ => none

/-- `for v in obj.values(): res = deep_find(v); if res: return res`. -/
def deepFindFields : List (String × Json) → Option (ℚ × ℚ)
  | [] => none
  | (_, v) :: rest =>
      match deep_find v with
      | some r => some r
      | none => deepFindFields rest

/-- `for item in obj: res = deep_find(item); if res: return res`. -/
def deepFindList : List Json → Option (ℚ × ℚ)
  | [] => none
  | v :: rest =>
      match deep_find v with
      | some r => some r
      | none => deepFindList rest
end

/-- `deep_find_futures(js)` (`src/nse_data.py:72-95`). -/
def deep_find_futures (js : Json) : Option (ℚ × ℚ) := deep_find js

mutual
/-- All mapping nodes of a JSON tree in the depth-first order in which
`deep_find` visits them (a node before its descendants, children in their
natural order). -/
def dictNodes : Json → List (List (String × Json))
  | Json.obj fields => fields :: dictNodesFields fields
  | Json.arr items => dictNodesList items
  | _ => []

/-- Depth-first mapping nodes below a mapping's field list. -/
def dictNodesFields : List (String × Json) → List (List (String × Json))
  | [] => []
  | (_, v) :: rest => dictNodes v ++ dictNodesFields rest

/-- Depth-first mapping nodes below a sequence's items. -/
def dictNodesList : List Json → List (List (String × Json))
  | [] => []
  | v :: rest => dictNodes v ++ dictNodesList rest
end

/-! ### Futures fetch and Telegram notifier -/

/-- Outcome of `fetch_json(DERIV_URL)` inside `fetch_futures`: either a
parsed JSON document, or any raised exception (HTTP error, timeout, parse
failure), which the `except` clause catches. -/
inductive FetchOutcome where
  | success : Json → FetchOutcome
  | failure : FetchOutcome

/-- `fetch_futures()` (`src/nse_data.py:97-107`): on any exception return
`(0, 0)`; on success run the deep finder and return its pair if found
(a 2-tuple is always truthy in Python), else `(0, 0)`. -/
def fetch_futures : FetchOutcome → ℚ × ℚ
  | FetchOutcome.failure => (0, 0)
  | FetchOutcome.success js =>
      match deep_find_futures js with
      | some r => r
      | none => (0, 0)

/-- Outcome of `requests.post(...)` in `send_telegram`: a response with an
HTTP status code, or a raised network exception. -/
inductive PostOutcome where
  | resp : ℕ → PostOutcome
  | netError : PostOutcome

/-- Python truthiness test `not x` for an optional string environment
variable: true when unset or empty. -/
def credMissing : Option String → Bool
  | none => true
  | some s => s.isEmpty

/-- `send_telegram(text)` (`src/nse_data.py:128-139`), abstracted over the
credentials and the HTTP outcome: returns `False` when either credential is
unset/empty; otherwise posts, where `raise_for_status()` raises exactly for
status codes in `[400, 600)`, any exception is caught and yields `False`,
and an unexceptional response yields `True`. -/
def send_telegram (token chatId : Option String) (outcome : PostOutcome) : Bool :=
  if credMissing token || credMissing chatId then false
  else
    match outcome with
    | PostOutcome.netError => false
    | PostOutcome.resp status => if 400 ≤ status ∧ status < 600 then false else true

/-! ### The polling loop body (`main_loop`, `src/nse_data.py:158-227`) -/

/-- The `prev_option_snapshot` dict (`src/nse_data.py:47`): a map from
`(strike, side)` keys to the previously observed `(oi, vol, iv)` triple. -/
def SnapMap : Type := ℤ × Side → Option (ℤ × ℤ × ℚ)

/-- `prev_option_snapshot[(s, t)] = (oi, vol, iv)` — pointwise dict update. -/
def SnapMap.update (m : SnapMap) (k : ℤ × Side) (v : ℤ × ℤ × ℚ) : SnapMap :=
  fun x => if x = k then some v else m x

/-- Result of one side's strike loop in `main_loop`: the updated snapshot
map and the accumulators `sum_*_coi` (which the source increments by the
current `oi`), `sum_*_iv`, `count_*`. -/
structure SideResult where
  snap : SnapMap
  sumCoi : ℤ
  sumIv : ℚ
  count : ℕ

/-- The per-side strike loop of `main_loop` (`src/nse_data.py:172-184` for
calls, `186-198` for puts), with explicit accumulators: for each strike `s`
in order, look up the current triple, read `prev` from the snapshot map,
compute `d = delta(...)` (bound but not used by the sums), store the current
triple under `(s, t)`, and accumulate `sum += oi`, `sumIv += iv`,
`count += 1`. -/
def sideLoopAux (data : List Row) (t : Side) :
    List ℤ → SnapMap → ℤ → ℚ → ℕ → SideResult
  | [], m, sc, siv, c => ⟨m, sc, siv, c⟩
  | s :: rest, m, sc, siv, c =>
      let cur := lookup data s t
      let _d := delta cur (m (s, t))
      sideLoopAux data t rest (m.update (s, t) cur) (sc + cur.1) (siv + cur.2.2) (c + 1)

/-- One side's strike loop started from zeroed accumulators. -/
def sideLoop (data : List Row) (t : Side) (strikes : List ℤ) (m : SnapMap) : SideResult :=
  sideLoopAux data t strikes m 0 0 0

/-- `sum / max(1, count)` — the average-IV division of
`src/nse_data.py:200-201`. -/
def avgIv (sumIv : ℚ) (count : ℕ) : ℚ := sumIv / ((max 1 count : ℕ) : ℚ)

/-- The pure core of one `main_loop` iteration over the option chain: run
the call-side loop, then the put-side loop on the updated map, and form the
two average IVs. -/
structure IterResult where
  snap : SnapMap
  sumCallCoi : ℤ
  sumPutCoi : ℤ
  avgCallIv : ℚ
  avgPutIv : ℚ

/-- The option-chain part of one `main_loop` iteration
(`src/nse_data.py:168-201`). -/
def iterOptions (data : List Row) (callStrikes putStrikes : List ℤ) (m : SnapMap) :
    IterResult :=
  let rc := sideLoop data Side.CE callStrikes m
  let rp := sideLoop data Side.PE putStrikes rc.snap
  ⟨rp.snap, rc.sumCoi, rp.sumCoi, avgIv rc.sumIv rc.count, avgIv rp.sumIv rp.count⟩

/-- Spec-side formula, written from the spec's words (§4.5): the sum over
the selected strikes of the open-interest deltas (current OI minus the
previously recorded OI for that `(strike, side)` key), an undefined delta
(no previous reading) contributing zero.  To be compared with the source's
`sum_*_coi` accumulator. -/
def specDeltaOiSum (data : List Row) (t : Side) (strikes : List ℤ) (m : SnapMap) : ℤ :=
  (strikes.map (fun s => ((delta (lookup data s t) (m (s, t))).map (fun d => d.1)).getD 0)).sum

/-! ### Concrete inputs used by the test-scenario theorems -/

/-- The all-absent previous-reading map (process start). -/
def emptySnap : SnapMap := fun _ => none

/-- Three rows whose call legs carry the implied volatilities 10, 20, 30. -/
def dataIv : List Row :=
  [⟨1, some ⟨some 0, some 0, some 10⟩, none⟩,
   ⟨2, some ⟨some 0, some 0, some 20⟩, none⟩,
   ⟨3, some ⟨some 0, some 0, some 30⟩, none⟩]

/-- A single row at strike 24850 whose call leg has open interest 10. -/
def bugRow : Row := ⟨24850, some ⟨some 10, some 0, some 0⟩, none⟩

/-- A previous-reading map that already recorded `(10, 0, 0)` for the call
leg at strike 24850 — i.e. the open interest did not change since the
previous poll. -/
def bugSnap : SnapMap := fun k => if k = (24850, Side.CE) then some (10, 0, 0) else none

/-! ### Auxiliary lemmas -/

/-- `lookup` is the triple of the first row matching strike and side (absent
fields defaulting to zero), or the zero triple when no row matches. -/
lemma lookup_eq_find (data : List Row) (s : ℤ) (t : Side) :
    lookup data s t =
      (data.find? (fun d => decide (d.strikePrice = s) && (d.leg t).isSome)).elim (0, 0, 0)
        (fun d => (d.leg t).elim (0, 0, 0) legTriple) := by
  induction data with
  | nil => rfl
  | cons d rest ih =>
    simp only [List.find?_cons]
    by_cases h : d.strikePrice = s ∧ (d.leg t).isSome
    · obtain ⟨leg, hleg⟩ := Option.isSome_iff_exists.mp h.2
      have hb : (decide (d.strikePrice = s) && (d.leg t).isSome) = true := by
        simp [h.1, h.2]
      simp [lookup, h, hleg, hb]
    · have hb : (decide (d.strikePrice = s) && (d.leg t).isSome) = false := by
        rw [Bool.eq_false_iff]
        simpa [Bool.and_eq_true, decide_eq_true_iff] using h
      simp [lookup, h, hb, ih]

/-- Accumulator form of the per-side strike loop: the final accumulators are
the initial ones plus, respectively, the sum of current open interests, the
sum of current implied volatilities, and the number of strikes. -/
lemma sideLoopAux_sums (data : List Row) (t : Side) :
    ∀ (strikes : List ℤ) (m : SnapMap) (sc : ℤ) (siv : ℚ) (c : ℕ),
      (sideLoopAux data t strikes m sc siv c).sumCoi
          = sc + (strikes.map (fun s => (lookup data s t).1)).sum ∧
      (sideLoopAux data t strikes m sc siv c).sumIv
          = siv + (strikes.map (fun s => (lookup data s t).2.2)).sum ∧
      (sideLoopAux data t strikes m sc siv c).count = c + strikes.length := by
  intro strikes
  induction strikes with
  | nil => intro m sc siv c; simp [sideLoopAux]
  | cons s rest ih =>
    intro m sc siv c
    simp only [sideLoopAux]
    refine ⟨?_, ?_, ?_⟩
    · rw [(ih _ _ _ _).1, List.map_cons, List.sum_cons]; ring
    · rw [(ih _ _ _ _).2.1, List.map_cons, List.sum_cons]; ring
    · rw [(ih _ _ _ _).2.2, List.length_cons]; omega

/-! ### Claim theorems -/

/-- C4: `delta` of a current triple against an absent previous reading is
the `None` sentinel, never a zero triple; against a present previous triple
it is the element-wise subtraction, so `delta c (some c)` is the zero
triple. -/
theorem delta_spec :
    (∀ c : ℤ × ℤ × ℚ, delta c none = none) ∧
    (∀ c p : ℤ × ℤ × ℚ, delta c (some p) = some (c.1 - p.1, c.2.1 - p.2.1, c.2.2 - p.2.2)) ∧
    (∀ c : ℤ × ℤ × ℚ, delta c (some c) = some (0, 0, 0)) ∧
    (∀ c : ℤ × ℤ × ℚ, delta c none ≠ some (0, 0, 0)) := by
  refine ⟨fun c => rfl, fun c p => rfl, fun c => by simp [delta], fun c => by simp [delta]⟩

/-- Witness for C4 at a concrete triple. -/
theorem delta_spec_witness :
    delta (1, 2, 3) (some (1, 2, 3)) = some (0, 0, 0) ∧ delta (1, 2, 3) none ≠ some (0, 0, 0) :=
  ⟨delta_spec.2.2.1 (1, 2, 3), delta_spec.2.2.2 (1, 2, 3)⟩

/-- C5: `lookup` returns the `(oi, vol, iv)` triple of the first row whose
strike matches and whose side sub-record is present, each absent field
defaulting to zero, and returns the zero triple when no row matches. -/
theorem lookup_spec :
    (∀ (data : List Row) (s : ℤ) (t : Side),
      lookup data s t =
        (data.find? (fun d => decide (d.strikePrice = s) && (d.leg t).isSome)).elim (0, 0, 0)
          (fun d => (d.leg t).elim (0, 0, 0) legTriple)) ∧
    (∀ (data : List Row) (s : ℤ) (t : Side),
      (∀ d ∈ data, ¬(d.strikePrice = s ∧ (d.leg t).isSome)) → lookup data s t = (0, 0, 0)) := by
  refine ⟨lookup_eq_find, fun data s t hall => ?_⟩
  rw [lookup_eq_find]
  have : data.find? (fun d => decide (d.strikePrice = s) && (d.leg t).isSome) = none := by
    rw [List.find?_eq_none]
    intro d hd
    simpa [Bool.and_eq_true, decide_eq_true_iff] using hall d hd
  rw [this]
  rfl

/-- Witness for C5 at a concrete row-set with no matching row. -/
theorem lookup_spec_witness : lookup [Row.mk 5 none none] 5 Side.CE = (0, 0, 0) :=
  lookup_spec.2 [Row.mk 5 none none] 5 Side.CE
    (by intro d hd; simp only [List.mem_singleton] at hd; subst hd; simp [Row.leg])

/-- C2: for a positive strike step, `pick_strikes` returns a call list and a
put list of `OTM_COUNT + 2` distinct strikes each, the put list being the
call list mirrored about the ATM strike. -/
theorem pick_strikes_spec (a step : ℤ) (otm : ℕ) (hstep : 0 < step) :
    (pick_strikes step otm a).1.length = otm + 2 ∧
    (pick_strikes step otm a).2.length = otm + 2 ∧
    (pick_strikes step otm a).1.Nodup ∧
    (pick_strikes step otm a).2.Nodup ∧
    (pick_strikes step otm a).2 = (pick_strikes step otm a).1.map (fun x => 2 * a - x) ∧
    (∀ x : ℤ, x ∈ (pick_strikes step otm a).1 ↔
      ∃ k : ℤ, -1 ≤ k ∧ k ≤ (otm : ℤ) ∧ x = a + k * step) := by
  have hs0 : step ≠ 0 := hstep.ne'
  have hinj : Function.Injective (fun i : ℕ => a + ((i : ℤ) + 1) * step) := by
    intro i j hij
    simp only at hij
    have h2 : ((i : ℤ) + 1) * step = ((j : ℤ) + 1) * step := by linarith
    have h3 := mul_right_cancel₀ hs0 h2
    omega
  have hnotmem_a : a ∉ (List.range otm).map (fun i : ℕ => a + ((i : ℤ) + 1) * step) := by
    intro hmem
    obtain ⟨i, _, hfi⟩ := List.mem_map.mp hmem
    have hp : 0 < ((i : ℤ) + 1) * step := mul_pos (by omega) hstep
    linarith
  have hnotmem_b :
      a - step ∉ a :: (List.range otm).map (fun i : ℕ => a + ((i : ℤ) + 1) * step) := by
    intro hmem
    rcases List.mem_cons.mp hmem with h | h
    · linarith
    · obtain ⟨i, _, hfi⟩ := List.mem_map.mp h
      have hp : 0 < ((i : ℤ) + 1) * step := mul_pos (by omega) hstep
      linarith
  have hnods : ((List.range otm).map (fun i : ℕ => a + ((i : ℤ) + 1) * step)).Nodup :=
    (List.nodup_range otm).map hinj
  have hcalls : (pick_strikes step otm a).1.Nodup := by
    simp only [pick_strikes, List.cons_append, List.nil_append, List.nodup_cons]
    exact ⟨hnotmem_b, hnotmem_a, hnods⟩
  have hmirror : (pick_strikes step otm a).2 = (pick_strikes step otm a).1.map (fun x => 2 * a - x) := by
    simp only [pick_strikes, List.map_append, List.map_map, List.map_cons, List.map_nil]
    have h1 : 2 * a - (a - step) = a + step := by ring
    have h2 : 2 * a - a = a := by ring
    rw [h1, h2]
    have h3 : (List.range otm).map ((fun x => 2 * a - x) ∘ fun i : ℕ => a + ((i : ℤ) + 1) * step)
        = (List.range otm).map (fun i : ℕ => a - ((i : ℤ) + 1) * step) :=
      List.map_congr_left (fun i _ => by simp only [Function.comp]; ring)
    rw [h3]
  refine ⟨?_, ?_, hcalls, ?_, hmirror, ?_⟩
  · simp [pick_strikes]
  · simp [pick_strikes]
  · rw [hmirror]
    exact hcalls.map (fun x y hxy => by omega)
  · intro x
    simp only [pick_strikes, List.cons_append, List.nil_append, List.mem_cons,
      List.mem_map, List.mem_range]
    constructor
    · rintro (rfl | rfl | ⟨i, hi, rfl⟩)
      · exact ⟨-1, le_refl _, by omega, by ring⟩
      · exact ⟨0, by norm_num, by omega, by ring⟩
      · exact ⟨(i : ℤ) + 1, by omega, by omega, by ring⟩
    · rintro ⟨k, hk1, hk2, rfl⟩
      rcases eq_or_lt_of_le hk1 with h | h
      · left; rw [← h]; ring
      · rcases eq_or_lt_of_le (show (0 : ℤ) ≤ k by omega) with h0 | h0
        · right; left; rw [← h0]; ring
        · right; right
          refine ⟨(k - 1).toNat, by omega, ?_⟩
          have hcast : (((k - 1).toNat : ℤ)) = k - 1 := Int.toNat_of_nonneg (by omega)
          rw [hcast]; ring

/-- Witness for C2 at the spec's concrete scenario (step 50, two OTM
strikes, ATM 24850). -/
theorem pick_strikes_spec_witness :
    (pick_strikes 50 2 24850).1.length = 2 + 2 ∧ (pick_strikes 50 2 24850).1.Nodup :=
  ⟨(pick_strikes_spec 24850 50 2 (by norm_num)).1,
   (pick_strikes_spec 24850 50 2 (by norm_num)).2.2.1⟩

/-- C7: the per-side average implied volatility is the sum of the raw IV
values over the selected strikes divided by `max 1 count`, whose divisor is
always positive; for IVs `[10, 20, 30]` the average is 20, and over an empty
strike list it is 0. -/
theorem avg_iv_spec :
    (∀ (data : List Row) (t : Side) (strikes : List ℤ) (m : SnapMap),
      avgIv (sideLoop data t strikes m).sumIv (sideLoop data t strikes m).count
          = (strikes.map (fun s => (lookup data s t).2.2)).sum
              / ((max 1 strikes.length : ℕ) : ℚ)
        ∧ (0 : ℚ) < ((max 1 (sideLoop data t strikes m).count : ℕ) : ℚ)) ∧
    avgIv (sideLoop dataIv Side.CE [1, 2, 3] emptySnap).sumIv
        (sideLoop dataIv Side.CE [1, 2, 3] emptySnap).count = 20 ∧
    avgIv (sideLoop [] Side.CE [] emptySnap).sumIv
        (sideLoop [] Side.CE [] emptySnap).count = 0 := by
  have hsums := fun data t strikes m => sideLoopAux_sums data t strikes m 0 0 0
  refine ⟨fun data t strikes m => ⟨?_, ?_⟩, ?_, ?_⟩
  · rw [sideLoop, (hsums data t strikes m).2.1, (hsums data t strikes m).2.2, zero_add,
      Nat.zero_add]
    simp [avgIv]
  · rw [sideLoop, (hsums data t strikes m).2.2]
    exact_mod_cast Nat.lt_of_lt_of_le Nat.zero_lt_one (le_max_left 1 _)
  · rw [sideLoop, (hsums dataIv Side.CE [1, 2, 3] emptySnap).2.1,
      (hsums dataIv Side.CE [1, 2, 3] emptySnap).2.2]
    norm_num [dataIv, lookup, legTriple, Row.leg, avgIv]
  · rw [sideLoop, (hsums [] Side.CE [] emptySnap).2.1, (hsums [] Side.CE [] emptySnap).2.2]
    norm_num [avgIv]

/-- C8 counterexample: with credentials present, a 304 response — which is
not a 2xx status — makes `send_telegram` report success (`true`), because
`raise_for_status` only raises for 4xx/5xx; so "non-2xx implies reported
failure" is false as stated. -/
theorem send_telegram_counterexample :
    send_telegram (some "t") (some "c") (PostOutcome.resp 304) = true
      ∧ ¬(200 ≤ 304 ∧ 304 < 300) := by
  constructor
  · simp only [send_telegram, credMissing]
    decide
  · omega

/-- C8 amended: a network exception always yields `false`; a 4xx/5xx
response yields `false`; and missing/empty credentials yield `false`
(notification skipped); exceptions are modelled as data, so the notifier is
a total function and nothing propagates past it. -/
theorem send_telegram_spec :
    ∀ (tok cid : Option String) (outcome : PostOutcome),
      send_telegram tok cid PostOutcome.netError = false ∧
      (∀ s : ℕ, 400 ≤ s → s < 600 → send_telegram tok cid (PostOutcome.resp s) = false) ∧
      ((credMissing tok || credMissing cid) = true → send_telegram tok cid outcome = false) := by
  intro tok cid outcome
  refine ⟨?_, fun s h4 h6 => ?_, fun hmiss => ?_⟩
  · by_cases h : (credMissing tok || credMissing cid) = true <;> simp [send_telegram, h]
  · by_cases h : (credMissing tok || credMissing cid) = true <;>
      simp [send_telegram, h, h4, h6]
  · simp [send_telegram, hmiss]

/-- Witness for C8's amended theorem at concrete inputs. -/
theorem send_telegram_spec_witness :
    send_telegram (some "t") (some "c") (PostOutcome.resp 404) = false
      ∧ send_telegram none none (PostOutcome.resp 200) = false :=
  ⟨(send_telegram_spec (some "t") (some "c") (PostOutcome.resp 404)).2.1 404
      (by norm_num) (by norm_num),
   (send_telegram_spec none none (PostOutcome.resp 200)).2.2 rfl⟩

/-- C10: `fetch_futures` is total (exceptions are data) and returns `(0, 0)`
both on a failed fetch/parse and when the deep finder finds nothing, making
the two cases indistinguishable; and a futures delta taken against a stored
`(0, 0)` is the element-wise difference — here the current pair itself —
never the `None` sentinel. -/
theorem fetch_futures_spec :
    fetch_futures FetchOutcome.failure = (0, 0) ∧
    (∀ js : Json, deep_find_futures js = none →
        fetch_futures (FetchOutcome.success js) = (0, 0)) ∧
    fetch_futures (FetchOutcome.success Json.null) = fetch_futures FetchOutcome.failure ∧
    (∀ c : ℚ × ℚ, delta2 c (some (0, 0)) = some c ∧ delta2 c (some (0, 0)) ≠ none) := by
  refine ⟨rfl, fun js h => ?_, ?_, fun c => ⟨?_, ?_⟩⟩
  · simp [fetch_futures, h]
  · simp [fetch_futures, deep_find_futures, deep_find]
  · simp [delta2]
  · simp [delta2]

/-- Witness for C10 at the JSON document `null`, which contains no mapping
node at all. -/
theorem fetch_futures_spec_witness :
    fetch_futures (FetchOutcome.success Json.null) = (0, 0) ∧
    delta2 (3, 4) (some (0, 0)) ≠ none :=
  ⟨fetch_futures_spec.2.1 Json.null (by simp [deep_find_futures, deep_find]),
   (fetch_futures_spec.2.2.2 (3, 4)).2⟩

/-- `roundHalfEven` lands on a nearest integer: its distance to `q` is at
most the distance from `q` to any integer. -/
lemma roundHalfEven_nearest (q : ℚ) (m : ℤ) :
    |(roundHalfEven q : ℚ) - q| ≤ |(m : ℚ) - q| := by
  have h0 : ((⌊q⌋ : ℤ) : ℚ) ≤ q := Int.floor_le q
  have h1 : q < (⌊q⌋ : ℚ) + 1 := Int.lt_floor_add_one q
  have hub1 : (m : ℚ) - q ≤ |(m : ℚ) - q| := le_abs_self _
  have hub2 : q - m ≤ |(m : ℚ) - q| := by rw [abs_sub_comm]; exact le_abs_self _
  have hm : (m : ℚ) ≤ (⌊q⌋ : ℚ) ∨ (⌊q⌋ : ℚ) + 1 ≤ (m : ℚ) := by
    rcases le_or_lt m ⌊q⌋ with h | h
    · exact Or.inl (by exact_mod_cast h)
    · right
      have : ⌊q⌋ + 1 ≤ m := h
      exact_mod_cast this
  rw [roundHalfEven]
  split_ifs with hlt hgt heven
  · rw [abs_of_nonpos (by linarith)]
    rcases hm with h | h <;> linarith
  · push_cast
    rw [abs_of_nonneg (by linarith)]
    rcases hm with h | h <;> linarith
  · have hhalf : q - (⌊q⌋ : ℚ) = 1 / 2 := le_antisymm (by linarith) (by linarith)
    rw [abs_of_nonpos (by linarith)]
    rcases hm with h | h <;> linarith
  · have hhalf : q - (⌊q⌋ : ℚ) = 1 / 2 := le_antisymm (by linarith) (by linarith)
    push_cast
    rw [abs_of_nonneg (by linarith)]
    rcases hm with h | h <;> linarith

/-- C3: for a positive step, `round_strike` returns an exact multiple of
the step that is nearest to the reference price (the tie rule being fixed:
round half to even, inherited from Python's `round`); concretely, with step
50 the ATM for 24873 is 24850, and with two OTM strikes the call and put
strike lists are exactly those of the spec's end-to-end scenario. -/
theorem round_strike_spec :
    (∀ (step : ℤ) (u : ℚ), 0 < step →
      (step ∣ round_strike step u) ∧
      ∀ m : ℤ, |(round_strike step u : ℚ) - u| ≤ |((m * step : ℤ) : ℚ) - u|) ∧
    round_strike 50 24873 = 24850 ∧
    pick_strikes 50 2 (round_strike 50 24873)
      = ([24800, 24850, 24900, 24950], [24900, 24850, 24800, 24750]) := by
  have hatm : round_strike 50 24873 = 24850 := by
    have hcast : (((50 : ℤ) : ℚ)) = 50 := by norm_num
    have hfloor : ⌊(24873 / 50 : ℚ)⌋ = 497 := by
      rw [Int.floor_eq_iff]
      norm_num
    rw [round_strike, roundHalfEven, hcast, hfloor]
    norm_num
  refine ⟨fun step u hstep => ⟨Dvd.intro_left _ rfl, fun m => ?_⟩, hatm, ?_⟩
  · have hs0 : ((step : ℤ) : ℚ) ≠ 0 := by exact_mod_cast hstep.ne'
    have hu : u = u / (step : ℚ) * (step : ℚ) := (div_mul_cancel₀ u hs0).symm
    have key := roundHalfEven_nearest (u / (step : ℚ)) m
    rw [round_strike]
    push_cast
    calc |(roundHalfEven (u / (step : ℚ)) : ℚ) * (step : ℚ) - u|
        = |(roundHalfEven (u / (step : ℚ)) : ℚ) - u / (step : ℚ)| * |(step : ℚ)| := by
          rw [← abs_mul, sub_mul, ← hu]
      _ ≤ |(m : ℚ) - u / (step : ℚ)| * |(step : ℚ)| :=
          mul_le_mul_of_nonneg_right key (abs_nonneg _)
      _ = |(m : ℚ) * (step : ℚ) - u| := by rw [← abs_mul, sub_mul, ← hu]
  · rw [hatm]
    simp [pick_strikes, List.range_succ]

/-- Witness for C3 at step 50 and reference price 24873 (the nearest-ness
bound instantiated at the neighbouring multiple 498·50). -/
theorem round_strike_spec_witness :
    (50 ∣ round_strike 50 24873) ∧
    |(round_strike 50 24873 : ℚ) - 24873| ≤ |((498 * 50 : ℤ) : ℚ) - 24873| :=
  ⟨(round_strike_spec.1 50 24873 (by norm_num)).1,
   (round_strike_spec.1 50 24873 (by norm_num)).2 498⟩

/-- A field's value is structurally smaller than the mapping containing it. -/
lemma sizeOf_lt_of_mem_fields {p : String × Json} {fields : List (String × Json)}
    (h : p ∈ fields) : sizeOf p.2 < sizeOf (Json.obj fields) := by
  have h1 := List.sizeOf_lt_of_mem h
  obtain ⟨k, v⟩ := p
  simp only [Prod.mk.sizeOf_spec] at h1
  simp only [Json.obj.sizeOf_spec]
  omega

/-- An item is structurally smaller than the sequence containing it. -/
lemma sizeOf_lt_of_mem_items {v : Json} {items : List Json} (h : v ∈ items) :
    sizeOf v < sizeOf (Json.arr items) := by
  have h1 := List.sizeOf_lt_of_mem h
  simp only [Json.arr.sizeOf_spec]
  omega

/-- The sequence traversal agrees with first-match search over the
depth-first node list, given that each item does. -/
lemma deepFindList_eq {items : List Json}
    (IH : ∀ v ∈ items, deep_find v = (dictNodes v).findSome? nodeVal) :
    deepFindList items = (dictNodesList items).findSome? nodeVal := by
  induction items with
  | nil => simp [deepFindList, dictNodesList]
  | cons v rest ih =>
    simp only [deepFindList, dictNodesList, List.findSome?_append]
    rw [IH v (List.mem_cons_self v rest), ih (fun w hw => IH w (List.mem_cons_of_mem v hw))]
    cases (dictNodes v).findSome? nodeVal <;> simp [Option.or]

/-- The mapping-values traversal agrees with first-match search over the
depth-first node list, given that each value does. -/
lemma deepFindFields_eq {fields : List (String × Json)}
    (IH : ∀ p ∈ fields, deep_find p.2 = (dictNodes p.2).findSome? nodeVal) :
    deepFindFields fields = (dictNodesFields fields).findSome? nodeVal := by
  induction fields with
  | nil => simp [deepFindFields, dictNodesFields]
  | cons p rest ih =>
    obtain ⟨k, v⟩ := p
    simp only [deepFindFields, dictNodesFields, List.findSome?_append]
    rw [IH ⟨k, v⟩ (List.mem_cons_self _ rest),
      ih (fun w hw => IH w (List.mem_cons_of_mem _ hw))]
    cases (dictNodes v).findSome? nodeVal <;> simp [Option.or]

/-- `deep_find` equals the first-match search over the depth-first list of
mapping nodes: the first mapping node (in depth-first order, a node before
its descendants) whose key scan yields both values wins. -/
lemma deep_find_eq_nodes : ∀ j : Json, deep_find j = (dictNodes j).findSome? nodeVal := by
  suffices h : ∀ (n : ℕ) (j : Json), sizeOf j ≤ n →
      deep_find j = (dictNodes j).findSome? nodeVal from fun j => h (sizeOf j) j le_rfl
  intro n
  induction n with
  | zero =>
    intro j hj
    exfalso
    cases j <;> simp_arith at hj
  | succ n ih =>
    intro j hj
    cases j with
    | num q => simp [deep_find, dictNodes]
    | str s => simp [deep_find, dictNodes]
    | null => simp [deep_find, dictNodes]
    | arr items =>
      have hIH : ∀ v ∈ items, deep_find v = (dictNodes v).findSome? nodeVal := fun v hv =>
        ih v (by have := sizeOf_lt_of_mem_items hv; omega)
      simp only [deep_find, dictNodes]
      exact deepFindList_eq hIH
    | obj fields =>
      have hIH : ∀ p ∈ fields, deep_find p.2 = (dictNodes p.2).findSome? nodeVal := fun p hp =>
        ih p.2 (by have := sizeOf_lt_of_mem_fields hp; omega)
      simp only [deep_find, dictNodes, List.findSome?_cons]
      cases h : nodeVal fields with
      | some r => simp [h]
      | none => simp [h, deepFindFields_eq hIH]

/-- C6: `deep_find_futures` is the depth-first first-match search: on every
tree it returns the `(oi, vol)` pair of the first mapping node (depth-first,
a node before its descendants) whose key scan finds a numeric
open-interest-like key and a numeric volume-like key; concretely, a document
whose single matching node carries `openInterest` 123 and
`totalTradedVolume` 456 yields `(123, 456)`, and a document with no such
node yields `none`. -/
theorem deep_find_futures_spec :
    (∀ js : Json, deep_find_futures js = (dictNodes js).findSome? nodeVal) ∧
    deep_find_futures
      (Json.obj [("records",
        Json.obj [("openInterest", Json.num 123), ("totalTradedVolume", Json.num 456)])])
        = some (123, 456) ∧
    deep_find_futures
      (Json.obj [("records",
        Json.arr [Json.num 1, Json.str "x", Json.obj [("volume", Json.num 7)]])])
        = none := by
  refine ⟨fun js => deep_find_eq_nodes js, ?_, ?_⟩
  · simp only [deep_find_futures, deep_find, deepFindFields, deepFindList]
    decide
  · simp only [deep_find_futures, deep_find, deepFindFields, deepFindList]
    decide

/-- Keys with a different side, or with a strike outside the processed list,
are untouched by the per-side strike loop. -/
lemma sideLoopAux_snap_notmem (data : List Row) (t : Side) :
    ∀ (strikes : List ℤ) (m : SnapMap) (sc : ℤ) (siv : ℚ) (c : ℕ) (k : ℤ × Side),
      (k.2 ≠ t ∨ k.1 ∉ strikes) →
      (sideLoopAux data t strikes m sc siv c).snap k = m k := by
  intro strikes
  induction strikes with
  | nil => intro m sc siv c k _; rfl
  | cons s rest ih =>
    intro m sc siv c k hk
    have hrest : k.2 ≠ t ∨ k.1 ∉ rest := by
      rcases hk with h | h
      · exact Or.inl h
      · exact Or.inr fun hmem => h (List.mem_cons_of_mem s hmem)
    have hne : k ≠ (s, t) := by
      rcases hk with h | h
      · intro he; subst he; exact h rfl
      · intro he; subst he; exact h (List.mem_cons_self s rest)
    simp only [sideLoopAux]
    rw [ih _ _ _ _ k hrest]
    simp [SnapMap.update, hne]

/-- After the per-side strike loop, every processed `(strike, side)` key
holds exactly the triple looked up for it in the current poll's data. -/
lemma sideLoopAux_snap_mem (data : List Row) (t : Side) :
    ∀ (strikes : List ℤ) (m : SnapMap) (sc : ℤ) (siv : ℚ) (c : ℕ) (s : ℤ), s ∈ strikes →
      (sideLoopAux data t strikes m sc siv c).snap (s, t) = some (lookup data s t) := by
  intro strikes
  induction strikes with
  | nil => intro m sc siv c s h; exact absurd h (List.not_mem_nil s)
  | cons s0 rest ih =>
    intro m sc siv c s hs
    simp only [sideLoopAux]
    by_cases hmem : s ∈ rest
    · exact ih _ _ _ _ s hmem
    · have hs0 : s = s0 := by
        rcases List.mem_cons.mp hs with h | h
        · exact h
        · exact absurd h hmem
      subst hs0
      rw [sideLoopAux_snap_notmem data t rest _ _ _ _ (s, t) (Or.inr hmem)]
      simp [SnapMap.update]

/-- C9: after one completed poll iteration, the previous-reading map holds,
for every key observed this iteration, exactly the value looked up in this
poll's data; every other key is untouched; and the delta computed for a key
with no previous reading is the `None` sentinel. -/
theorem prev_snapshot_invariant (data : List Row) (callS putS : List ℤ) (m : SnapMap) :
    (∀ s ∈ callS, (iterOptions data callS putS m).snap (s, Side.CE)
        = some (lookup data s Side.CE)) ∧
    (∀ s ∈ putS, (iterOptions data callS putS m).snap (s, Side.PE)
        = some (lookup data s Side.PE)) ∧
    (∀ k : ℤ × Side, (k.2 = Side.CE → k.1 ∉ callS) → (k.2 = Side.PE → k.1 ∉ putS) →
        (iterOptions data callS putS m).snap k = m k) ∧
    (∀ (c : ℤ × ℤ × ℚ) (k : ℤ × Side), m k = none → delta c (m k) = none) := by
  refine ⟨?_, ?_, ?_, ?_⟩
  · intro s hs
    simp only [iterOptions, sideLoop]
    rw [sideLoopAux_snap_notmem data Side.PE putS _ 0 0 0 (s, Side.CE)
        (Or.inl (by simp))]
    exact sideLoopAux_snap_mem data Side.CE callS m 0 0 0 s hs
  · intro s hs
    simp only [iterOptions, sideLoop]
    exact sideLoopAux_snap_mem data Side.PE putS _ 0 0 0 s hs
  · intro k hCE hPE
    have h1 : k.2 ≠ Side.PE ∨ k.1 ∉ putS := by
      by_cases h : k.2 = Side.PE
      · exact Or.inr (hPE h)
      · exact Or.inl h
    have h2 : k.2 ≠ Side.CE ∨ k.1 ∉ callS := by
      by_cases h : k.2 = Side.CE
      · exact Or.inr (hCE h)
      · exact Or.inl h
    simp only [iterOptions, sideLoop]
    rw [sideLoopAux_snap_notmem data Side.PE putS _ 0 0 0 k h1,
      sideLoopAux_snap_notmem data Side.CE callS m 0 0 0 k h2]
  · intro c k h
    rw [h]
    rfl

/-- Witness for C9 at a concrete iteration: an observed key holds the
current reading, an unobserved key stays absent, and a first-ever key's
delta is the sentinel. -/
theorem prev_snapshot_invariant_witness :
    (iterOptions [] [100] [200] emptySnap).snap (100, Side.CE) = some (0, 0, 0) ∧
    (iterOptions [] [100] [200] emptySnap).snap (5, Side.CE) = none ∧
    delta (7, 8, 9) (emptySnap (100, Side.CE)) = none := by
  refine ⟨?_, ?_, ?_⟩
  · rw [(prev_snapshot_invariant [] [100] [200] emptySnap).1 100
      (List.mem_singleton.mpr rfl)]
    rfl
  · rw [(prev_snapshot_invariant [] [100] [200] emptySnap).2.2.1 (5, Side.CE)
      (fun _ => by simp) (fun _ => by simp)]
    rfl
  · exact (prev_snapshot_invariant [] [100] [200] emptySnap).2.2.2 (7, 8, 9) (100, Side.CE) rfl

/-- C1: the reported per-side "Total COI" aggregate is NOT the sum of
open-interest deltas — the loop accumulates the raw current open interest.
At a poll where the single selected call strike has current OI 10 and the
previous reading for that key was already OI 10, the code reports 10 while
the sum of deltas (the spec's formula, undefined deltas counting as zero)
is 0. -/
theorem sum_coi_is_raw_oi :
    (iterOptions [bugRow] [24850] [] bugSnap).sumCallCoi = 10 ∧
    specDeltaOiSum [bugRow] Side.CE [24850] bugSnap = 0 ∧
    (iterOptions [bugRow] [24850] [] bugSnap).sumCallCoi
      ≠ specDeltaOiSum [bugRow] Side.CE [24850] bugSnap := by
  refine ⟨?_, ?_, ?_⟩
  · simp [iterOptions, sideLoop, sideLoopAux, lookup, legTriple, Row.leg, bugRow]
  · simp [specDeltaOiSum, lookup, legTriple, Row.leg, bugRow, bugSnap, delta]
  · simp [iterOptions, sideLoop, sideLoopAux, lookup, legTriple, Row.leg, bugRow,
      specDeltaOiSum, bugSnap, delta]

end NseData
